import Mathlib

/-!
Verification of the `diol` / `zentity` repository-pattern ORM layer.

The development shallowly embeds the two Python modules `diol/core.py` and
`zentity/core.py`.  Python dictionaries are modelled as association lists in
insertion order (Python 3 dicts preserve insertion order), Python values by
the inductive type `Val`, instances of (data)classes by `Inst`, and the
external query-execution library (`records`) by an oracle function mapping a
SQL text and its named parameters to the list of returned rows.  Calls made
to the external library, and recursive `get_or_save` dispatches on
foreign-key values, are recorded in an effect trace.
-/

set_option maxHeartbeats 1000000

namespace Diol

/-- A Python runtime value, as far as this layer manipulates them:
`None`, integers, strings, objects (with a flag recording whether the
object's class carries a `Repository` in its `objects` attribute, i.e.
whether `is_model(type(v))` holds), and plain dictionaries (the result of
`dataclasses.asdict` on a nested dataclass). -/
inductive Val where
  | vnone
  | vint (n : Int)
  | vstr (s : String)
  | vobj (isModelClass : Bool) (attrs : List (String × Val))
  | vdict (entries : List (String × Val))

/-- Python truthiness (`bool(v)`): `None` is falsy, `0` is falsy, the empty
string is falsy, objects are truthy, empty dicts are falsy. -/
def pyTruthy : Val → Bool
  | .vnone => false
  | .vint n => n != 0
  | .vstr s => s != ""
  | .vobj _ _ => true
  | .vdict es => !es.isEmpty

/-- The check `v is None`. -/
def isNone : Val → Bool
  | .vnone => true
  | _ => false

/-- `is_model(type(value))` from `zentity/core.py`: true when the value's
class has an `objects` attribute holding a `Repository`. -/
def isModelV : Val → Bool
  | .vobj m _ => m
  | _ => false

/-- Attribute lookup `getattr(v, name)` on a value; `none` models
`AttributeError`.  Only objects have (relevant) attributes here. -/
def getattrVal : Val → String → Option Val
  | .vobj _ attrs, name => attrs.lookup name
  | _, _ => none

mutual

/-- Python `==` on the values above (`!=` in the source is its negation).
Cross-constructor comparisons are unequal, as for the scalar types involved. -/
def valBeq : Val → Val → Bool
  | .vnone, .vnone => true
  | .vint a, .vint b => a == b
  | .vstr a, .vstr b => a == b
  | .vobj m1 a1, .vobj m2 a2 => m1 == m2 && entriesBeq a1 a2
  | .vdict a, .vdict b => entriesBeq a b
  | _, _ => false

def entriesBeq : List (String × Val) → List (String × Val) → Bool
  | [], [] => true
  | (k1, v1) :: r1, (k2, v2) :: r2 => k1 == k2 && valBeq v1 v2 && entriesBeq r1 r2
  | _, _ => false

end

mutual

/-- `dataclasses.asdict` value conversion: dataclass instances become plain
dictionaries, recursively; scalars are unchanged. -/
def asdictVal : Val → Val
  | .vnone => .vnone
  | .vint n => .vint n
  | .vstr s => .vstr s
  | .vobj _ attrs => .vdict (asdictEntries attrs)
  | .vdict es => .vdict (asdictEntries es)

def asdictEntries : List (String × Val) → List (String × Val)
  | [] => []
  | (k, v) :: rest => (k, asdictVal v) :: asdictEntries rest

end

/-- A Python instance: the flag records whether its class is a model class
(carries a `Repository`), `attrs` is its `__dict__` in insertion order. -/
structure Inst where
  isModel : Bool
  attrs : List (String × Val)

/-! ### Dictionaries as association lists (insertion order preserved) -/

/-- `d[k]` lookup; `none` models `KeyError` / absence. -/
def dictGet {α : Type} : List (String × α) → String → Option α
  | [], _ => none
  | (k1, v1) :: rest, k => if k1 = k then some v1 else dictGet rest k

/-- `d[k] = v`: update in place if the key is present, append otherwise. -/
def dictSet {α : Type} : List (String × α) → String → α → List (String × α)
  | [], k, v => [(k, v)]
  | (k1, v1) :: rest, k, v =>
      if k1 = k then (k1, v) :: rest else (k1, v1) :: dictSet rest k v

/-- `del d[k]`: remove the key; `none` models `KeyError` when absent. -/
def dictDel {α : Type} : List (String × α) → String → Option (List (String × α))
  | [], _ => none
  | (k1, v1) :: rest, k =>
      if k1 = k then some rest else (dictDel rest k).map (fun r => (k1, v1) :: r)

/-- `k in d`. -/
def hasKey {α : Type} (d : List (String × α)) (k : String) : Bool :=
  (dictGet d k).isSome

theorem dictGet_dictSet_self {α : Type} (d : List (String × α)) (k : String) (v : α) :
    dictGet (dictSet d k v) k = some v := by
  induction d with
  | nil => simp [dictSet, dictGet]
  | cons hd tl ih =>
      obtain ⟨k1, v1⟩ := hd
      by_cases h : k1 = k <;> simp [dictSet, dictGet, h, ih]

theorem dictGet_dictSet_ne {α : Type} (d : List (String × α)) (k x : String) (v : α)
    (h : x ≠ k) : dictGet (dictSet d k v) x = dictGet d x := by
  induction d with
  | nil =>
      have hkx : ¬ k = x := fun hh => h (Eq.symm hh)
      simp [dictSet, dictGet, hkx]
  | cons hd tl ih =>
      obtain ⟨k1, v1⟩ := hd
      by_cases h1 : k1 = k
      · subst h1
        have hkx : ¬ k1 = x := fun hh => h (Eq.symm hh)
        simp [dictSet, dictGet, hkx]
      · by_cases h2 : k1 = x
        · subst h2
          simp [dictSet, dictGet, h1, h]
        · simp [dictSet, dictGet, h1, h2, ih]

theorem dictGet_dictDel_ne {α : Type} (d d2 : List (String × α)) (k x : String)
    (hdel : dictDel d k = some d2) (h : x ≠ k) : dictGet d2 x = dictGet d x := by
  induction d generalizing d2 with
  | nil => simp [dictDel] at hdel
  | cons hd tl ih =>
      obtain ⟨k1, v1⟩ := hd
      by_cases h1 : k1 = k
      · subst h1
        have hkx : ¬ k1 = x := fun hh => h (Eq.symm hh)
        simp [dictDel] at hdel
        subst hdel
        simp [dictGet, hkx]
      · simp only [dictDel, if_neg h1] at hdel
        cases hrec : dictDel tl k with
        | none => simp [hrec] at hdel
        | some r =>
            simp only [hrec, Option.map_some'] at hdel
            obtain rfl : (k1, v1) :: r = d2 := by simpa using hdel
            by_cases h2 : k1 = x <;> simp [dictGet, h2, ih r hrec]

/-- The key list of a dictionary, in insertion order. -/
def dictKeys {α : Type} (d : List (String × α)) : List String := d.map Prod.fst

theorem dictGet_eq_none_iff {α : Type} (d : List (String × α)) (k : String) :
    dictGet d k = none ↔ k ∉ dictKeys d := by
  induction d with
  | nil => simp [dictGet, dictKeys]
  | cons hd tl ih =>
      obtain ⟨k1, v1⟩ := hd
      by_cases h1 : k1 = k
      · subst h1
        simp [dictGet, dictKeys]
      · have h2 : ¬ k = k1 := fun hh => h1 (Eq.symm hh)
        simp [dictGet, dictKeys, h1, h2, ih]

theorem mem_dictKeys_dictSet {α : Type} (d : List (String × α)) (k x : String) (v : α)
    (h : x ∈ dictKeys (dictSet d k v)) : x ∈ dictKeys d ∨ x = k := by
  induction d with
  | nil => simpa [dictSet, dictKeys] using h
  | cons hd tl ih =>
      obtain ⟨k1, v1⟩ := hd
      by_cases h1 : k1 = k
      · subst h1
        simp [dictSet, dictKeys] at h ⊢
        tauto
      · simp only [dictSet, if_neg h1, dictKeys, List.map_cons, List.mem_cons] at h
        rcases h with h | h
        · exact Or.inl (by simp [dictKeys, h])
        · rcases ih h with h2 | h2
          · exact Or.inl (by simp [dictKeys] at h2 ⊢; exact Or.inr h2)
          · exact Or.inr h2

theorem nodup_dictSet {α : Type} (d : List (String × α)) (k : String) (v : α)
    (h : (dictKeys d).Nodup) : (dictKeys (dictSet d k v)).Nodup := by
  induction d with
  | nil => simp [dictSet, dictKeys]
  | cons hd tl ih =>
      obtain ⟨k1, v1⟩ := hd
      simp only [dictKeys, List.map_cons, List.nodup_cons] at h
      by_cases h1 : k1 = k
      · subst h1
        simpa [dictSet, dictKeys] using h
      · simp only [dictSet, if_neg h1, dictKeys, List.map_cons, List.nodup_cons]
        refine ⟨fun hmem => ?_, ih h.2⟩
        rcases mem_dictKeys_dictSet tl k k1 v hmem with h2 | h2
        · exact h.1 (by simpa [dictKeys] using h2)
        · exact h1 h2

theorem dictDel_keys_sublist {α : Type} (d d2 : List (String × α)) (k : String)
    (hdel : dictDel d k = some d2) : List.Sublist (dictKeys d2) (dictKeys d) := by
  induction d generalizing d2 with
  | nil => simp [dictDel] at hdel
  | cons hd tl ih =>
      obtain ⟨k1, v1⟩ := hd
      by_cases h1 : k1 = k
      · subst h1
        simp [dictDel] at hdel
        subst hdel
        exact List.sublist_cons_self _ _
      · simp only [dictDel, if_neg h1] at hdel
        cases hrec : dictDel tl k with
        | none => simp [hrec] at hdel
        | some r =>
            simp only [hrec, Option.map_some'] at hdel
            obtain rfl : (k1, v1) :: r = d2 := by simpa using hdel
            exact List.Sublist.cons₂ _ (ih r hrec)

theorem nodup_dictDel {α : Type} (d d2 : List (String × α)) (k : String)
    (hdel : dictDel d k = some d2) (h : (dictKeys d).Nodup) : (dictKeys d2).Nodup :=
  (dictDel_keys_sublist d d2 k hdel).nodup h

theorem dictGet_dictDel_self {α : Type} (d d2 : List (String × α)) (k : String)
    (hdel : dictDel d k = some d2) (h : (dictKeys d).Nodup) : dictGet d2 k = none := by
  induction d generalizing d2 with
  | nil => simp [dictDel] at hdel
  | cons hd tl ih =>
      obtain ⟨k1, v1⟩ := hd
      simp only [dictKeys, List.map_cons, List.nodup_cons] at h
      by_cases h1 : k1 = k
      · subst h1
        simp [dictDel] at hdel
        subst hdel
        exact (dictGet_eq_none_iff tl k1).2 h.1
      · simp only [dictDel, if_neg h1] at hdel
        cases hrec : dictDel tl k with
        | none => simp [hrec] at hdel
        | some r =>
            simp only [hrec, Option.map_some'] at hdel
            obtain rfl : (k1, v1) :: r = d2 := by simpa using hdel
            simp [dictGet, h1, ih r hrec h.2]

/-! ### SQL text construction (`_columns`, `_placeholders`, `_where`, and the
f-strings of `_create`, `_get_all`, `_get_last`, `_get_all_by`) -/

/-- Python `sep.join(parts)`. -/
def pyJoin (sep : String) : List String → String
  | [] => ""
  | [x] => x
  | x :: y :: xs => x ++ sep ++ pyJoin sep (y :: xs)

/-- `Repository._columns`: iterating a dict yields its keys in insertion
order, joined with a comma. -/
def columnsOf (data : List (String × Val)) : String :=
  pyJoin ", " (dictKeys data)

/-- `Repository._placeholders`. -/
def placeholdersOf (data : List (String × Val)) : String :=
  pyJoin ", " ((dictKeys data).map (fun col => ":" ++ col))

/-- `Repository._where`. -/
def whereOf (data : List (String × Val)) : String :=
  pyJoin " AND " ((dictKeys data).map (fun col => col ++ "=:" ++ col))

/-- The f-string of `Repository._create` (table name interpolated verbatim). -/
def createSQL (tableName : String) (data : List (String × Val)) : String :=
  "\n            INSERT INTO " ++ tableName ++ "(" ++ columnsOf data ++
    ")\n            VALUES (" ++ placeholdersOf data ++ ")\n        "

/-- The f-string of `Repository._get_all`. -/
def getAllSQL (tableName : String) : String :=
  "\n            SELECT * FROM " ++ tableName ++ "\n        "

/-- The f-string of `Repository._get_last`. -/
def getLastSQL (tableName : String) : String :=
  "\n            SELECT * FROM " ++ tableName ++ " WHERE id=:id\n        "

/-- The f-string of `Repository._get_all_by`. -/
def getAllBySQL (tableName : String) (data : List (String × Val)) : String :=
  "\n            SELECT * FROM " ++ tableName ++ " WHERE " ++ whereOf data ++
    "\n        "

/-- The query text of the `_last_id` property. -/
def lastIdSQL : String :=
  "\n            SELECT LAST_INSERT_ID() as id\n        "

/-! ### Table-name derivation (`Repository.__init__`) -/

/-- Single pass over the characters implementing
`re.findall('[A-Z][^A-Z]*', name)`: a match starts at each uppercase letter
and extends over the following non-uppercase letters; characters that are
part of no match (those before the first uppercase letter) are skipped.
`cur` is the current match accumulated in reverse, `started` whether a match
is open. -/
def capGroupsAcc : List Char → Bool → List Char → List (List Char)
  | cur, started, [] => if started then [cur.reverse] else []
  | cur, started, c :: rest =>
      if c.isUpper then
        if started then cur.reverse :: capGroupsAcc [c] true rest
        else capGroupsAcc [c] true rest
      else
        if started then capGroupsAcc (c :: cur) true rest
        else capGroupsAcc cur started rest

/-- `re.findall('[A-Z][^A-Z]*', name)` on the characters of `name`. -/
def reFindAllCaps (l : List Char) : List (List Char) :=
  capGroupsAcc [] false l

/-- Python `"_".join(parts)` at the character level. -/
def joinCharGroups (sep : List Char) : List (List Char) → List Char
  | [] => []
  | [g] => g
  | g :: g2 :: gs => g ++ sep ++ joinCharGroups sep (g2 :: gs)

/-- Python `str.lower()` (ASCII letters, as in the identifiers at hand). -/
def pyLowerChars (l : List Char) : List Char := l.map Char.toLower

/-- Python `str.strip()`: remove leading and trailing whitespace. -/
def pyStripChars (l : List Char) : List Char :=
  ((l.dropWhile Char.isWhitespace).reverse.dropWhile Char.isWhitespace).reverse

/-- The derived table name of `Repository.__init__`:
`"_".join(re.findall('[A-Z][^A-Z]*', name)).lower().strip()`. -/
def deriveTableName (name : String) : String :=
  ⟨pyStripChars (pyLowerChars (joinCharGroups ['_'] (reFindAllCaps name.data)))⟩

/-- A Python model class, as far as `Repository.__init__` inspects it:
its `__name__` and its optional `table_name` attribute. -/
structure PyClass where
  name : String
  table_name : Option String

/-- The table name computed by `Repository.__init__`: the `table_name`
attribute verbatim when the class has one, the derived name otherwise. -/
def tableNameOf (model : PyClass) : String :=
  match model.table_name with
  | some t => t
  | none => deriveTableName model.name

/-- Modelled on the words of the spec sentence for the fallback case:
the class name split on capital-letter boundaries (a new segment begins at
every capital letter after the first character; the segment before the
first capital letter is kept), joined with underscores, lower-cased. -/
def specCapitalSplit : List Char → List (List Char)
  | [] => []
  | c :: rest => capGroupsAcc [c] true rest

/-- The table name as the spec sentence describes it. -/
def specTableName (name : String) : String :=
  ⟨pyLowerChars (joinCharGroups ['_'] (specCapitalSplit name.data))⟩

/-- The amended description: as `specTableName`, but the characters before
the first capital letter are discarded first (which is what the regular
expression does). -/
def specTableNameAmended (name : String) : String :=
  ⟨pyLowerChars (joinCharGroups ['_']
    (specCapitalSplit (name.data.dropWhile (fun c => !c.isUpper))))⟩

/-! ### Connection initialisation (`Repository.__init__`, first half) -/

/-- The process-wide connection dictionary `_db_connections` together with a
supply of fresh `records.Database()` objects (identified by numbers). -/
structure ConnState where
  conns : List (String × Nat)
  fresh : Nat

/-- Python truthiness of the `_connection_key` variable (`None` or a string). -/
def pyTruthyOptStr : Option String → Bool
  | none => false
  | some s => s != ""

/-- The connection part of `Repository.__init__`.  Returns the new global
state, the repository's `_connection_key` and `_db`, and whether the guarded
connection-creation branch was executed. -/
def repoInitConn (s : ConnState) : ConnState × Option String × Option Nat × Bool :=
  let ck0 : Option String := none                -- self._connection_key = None
  -- with self.connection_lock:
  let createBranch := !pyTruthyOptStr ck0        -- if not self._connection_key:
  let (ck1, s1) :=
    if createBranch then
      (some "default",                           -- self._connection_key = 'default'
       { conns := dictSet s.conns "default" s.fresh,
         -- _db_connections[self._connection_key] = records.Database()
         fresh := s.fresh + 1 })
    else (ck0, s)
  let db : Option Nat :=                         -- self._db = _db_connections[self._connection_key]
    match ck1 with
    | some k => dictGet s1.conns k
    | none => none
  (s1, ck1, db, createBranch)

/-- A `Repository` instance: the entity-related attributes set by
`__init__` (the `_db` handle is the identifier of the shared `Database`). -/
structure Repo where
  model : PyClass
  model_name : String
  table_name : String
  db : Option Nat

/-- `Repository(model)`: connection initialisation followed by the
entity-related attributes. -/
def mkRepository (s : ConnState) (model : PyClass) : Repo × ConnState :=
  let (s1, _ck, db, _branch) := repoInitConn s
  ({ model := model
     model_name := model.name
     table_name := tableNameOf model
     db := db }, s1)

/-! ### The query-execution library and the effect trace -/

/-- A row returned by the query library: a mapping from column name to
value, in column order. -/
abbrev Row := List (String × Val)

/-- The external query-execution library (`records`), abstracted as a pure
oracle from SQL text and named parameters to the rows it returns
(`.all(as_dict=True)`); for statements without a result set the returned
rows are ignored by the wrapper. -/
abbrev DBOracle := String → List (String × Val) → List Row

/-- One observable effect of a repository operation. -/
inductive Eff where
  | query (sql : String) (params : List (String × Val))
  | gosCall (v : Val)

/-- An exception raised by the wrapper code itself (the oracle never raises
in this model; library failures are out of scope of the wrapper's logic). -/
inductive PyErr where
  | attributeError (name : String)
  | keyError (k : String)
  | indexError

/-- The `_last_id` property: query `SELECT LAST_INSERT_ID() as id`, return
`rows[0]['id']` when there is a row with an `id` column, `None` otherwise. -/
def lastIdOf (db : DBOracle) : Val :=
  match db lastIdSQL [] with
  | [] => .vnone
  | r :: _ =>
      match dictGet r "id" with
      | some v => v
      | none => .vnone

/-- The attribute names the `Repository` class actually defines (its methods
and the instance attributes assigned in `__init__`).  Note that the last-id
property is spelled `_last_id`; there is no `last_id`. -/
def repositoryAttrNames : List String :=
  ["connection_lock", "model", "model_name", "table_name", "_db",
   "_connection_key", "_last_id", "_columns", "_placeholders", "_where",
   "_create", "_get_all", "_get_last", "_get_all_by", "create",
   "get_or_create", "filter", "get", "save", "get_or_save", "save_all",
   "get_all"]

/-- `self.model(**row)`: keyword expansion of a dictionary into the model
constructor; the resulting instance's `__dict__` is the dictionary, and its
class is the (decorated) model class. -/
def mkInst (attrs : List (String × Val)) : Inst := ⟨true, attrs⟩

/-- `{k: v for k, v in asdict(instance).items() if v is not None}`. -/
def saveDataOf (inst : Inst) : List (String × Val) :=
  (asdictEntries inst.attrs).filter (fun kv => !isNone kv.2)

/-! ### diol operations -/

/-- `diol` `Repository.create`: insert, then fill in `data['id']` from
`self.last_id` when absent.  The attribute lookup `self.last_id` is modelled
by membership in `repositoryAttrNames`; since the class defines `_last_id`
but no `last_id`, the lookup fails with `AttributeError`. -/
def diolCreate (repo : Repo) (db : DBOracle) (data : List (String × Val)) :
    Except PyErr Inst × List Eff :=
  let tr := [Eff.query (createSQL repo.table_name data) data]
  if hasKey data "id" then (.ok (mkInst data), tr)
  else if repositoryAttrNames.contains "last_id" then
    -- unreachable: `last_id` is not among the class's attributes; were it
    -- the `_last_id` property, the id would be filled in from the oracle
    (.ok (mkInst (dictSet data "id" (lastIdOf db))), tr ++ [Eff.query lastIdSQL []])
  else (.error (.attributeError "last_id"), tr)

/-- `diol` `Repository.filter`. -/
def diolFilter (repo : Repo) (db : DBOracle) (data : List (String × Val)) :
    List Inst × List Eff :=
  let q := getAllBySQL repo.table_name data
  ((db q data).map (fun row => mkInst row), [Eff.query q data])

/-- `diol` `Repository.get_all`. -/
def diolGetAll (repo : Repo) (db : DBOracle) : List Inst × List Eff :=
  let q := getAllSQL repo.table_name
  ((db q []).map (fun row => mkInst row), [Eff.query q []])

/-- `diol` `Repository.save`. -/
def diolSave (repo : Repo) (db : DBOracle) (inst : Inst) :
    Except PyErr Inst × List Eff :=
  let data := saveDataOf inst
  let tr := [Eff.query (createSQL repo.table_name data) data]
  match dictGet inst.attrs "id" with        -- if not instance.id:
  | none => (.error (.attributeError "id"), tr)
  | some idv =>
      if pyTruthy idv then (.ok inst, tr)
      else                                  -- instance.id = self._last_id
        (.ok { inst with attrs := dictSet inst.attrs "id" (lastIdOf db) },
         tr ++ [Eff.query lastIdSQL []])

/-- The row list `get_or_save` / `get_or_create` end up reading `rows[0]`
from: the `_get_all_by` result when nonempty, the `_get_last` result after
the insert otherwise. -/
def gosFoundRows (repo : Repo) (db : DBOracle) (data : List (String × Val)) :
    List Row :=
  let rows := db (getAllBySQL repo.table_name data) data
  if rows.isEmpty then db (getLastSQL repo.table_name) [("id", lastIdOf db)]
  else rows

/-- The `diffs` dict comprehension of `get_or_save`:
`{k: v for k, v in rows[0].items() for k2, v2 in data.items() if v != v2}`;
a key `k` of the row is kept (with the row's value) exactly when its value
differs from at least one value of `data` (a cross product, not a
per-column comparison). -/
def rowDiffs (row : Row) (data : List (String × Val)) : List (String × Val) :=
  row.filter (fun kv => data.any (fun kv2 => !valBeq kv.2 kv2.2))

/-- `for key, val in diffs.items(): setattr(instance, key, val)`. -/
def applySetAttrs (attrs : List (String × Val)) (diffs : List (String × Val)) :
    List (String × Val) :=
  diffs.foldl (fun a kv => dictSet a kv.1 kv.2) attrs

/-- The trace of the found-or-create phase shared by `get_or_save` and
`get_or_create`. -/
def gosPhaseTrace (repo : Repo) (db : DBOracle) (data : List (String × Val)) :
    List Eff :=
  let q1 := getAllBySQL repo.table_name data
  let rows := db q1 data
  if rows.isEmpty then
    [Eff.query q1 data, Eff.query (createSQL repo.table_name data) data,
     Eff.query lastIdSQL [],
     Eff.query (getLastSQL repo.table_name) [("id", lastIdOf db)]]
  else [Eff.query q1 data]

/-- `diol` `Repository.get_or_save`. -/
def diolGetOrSave (repo : Repo) (db : DBOracle) (inst : Inst) :
    Except PyErr Inst × List Eff :=
  let data := saveDataOf inst
  let tr := gosPhaseTrace repo db data
  match gosFoundRows repo db data with
  | [] => (.error .indexError, tr)          -- rows[0] on an empty list
  | row0 :: _ =>
      (.ok { inst with attrs := applySetAttrs inst.attrs (rowDiffs row0 data) }, tr)

/-! ### zentity operations (foreign-key resolution) -/

/-- The foreign-key resolution loop shared by the zentity operations:
iterate over the source bindings; on each value whose type carries a
`Repository`, call its `get_or_save` (modelled by the oracle `gos`, which
returns the value after that call), delete the key from the data dict and
set `<key>_id` to the value's `id`.  Returns the final dict (or the
exception raised) together with the values `get_or_save` was called on, in
call order. -/
def fkLoop (gos : Val → Val) :
    List (String × Val) → List (String × Val) →
    Except PyErr (List (String × Val)) × List Val
  | [], d => (.ok d, [])
  | (k, v) :: rest, d =>
      if isModelV v then
        let v2 := gos v                      -- value.get_or_save()
        match getattrVal v2 "id" with        -- value.id
        | none => (.error (.attributeError "id"), [v])
        | some i =>
            match dictDel d k with           -- del data[key]
            | none => (.error (.keyError k), [v])
            | some d2 =>
                let r := fkLoop gos rest (dictSet d2 (k ++ "_id") i)
                (r.1, v :: r.2)
      else fkLoop gos rest d

/-- `zentity` `Repository.create`.  The Python loop iterates over the very
dict it mutates; deleting a key and appending `<key>_id` keeps the size
constant, so the iterator raises nothing and additionally scans the
appended `_id` entries, which carry scalar ids and are skipped — the net
effect is the one-pass resolution `fkLoop` over the original bindings. -/
def zentityCreate (repo : Repo) (gos : Val → Val) (db : DBOracle)
    (data : List (String × Val)) : Except PyErr Inst × List Eff :=
  let (r, calls) := fkLoop gos data data
  let ctr := calls.map Eff.gosCall
  match r with
  | .error e => (.error e, ctr)
  | .ok d =>
      let tr := ctr ++ [Eff.query (createSQL repo.table_name d) d]
      if hasKey d "id" then (.ok (mkInst d), tr)
      else if repositoryAttrNames.contains "last_id" then
        (.ok (mkInst (dictSet d "id" (lastIdOf db))), tr ++ [Eff.query lastIdSQL []])
      else (.error (.attributeError "last_id"), tr)

/-- `zentity` `Repository.get_or_create`. -/
def zentityGetOrCreate (repo : Repo) (gos : Val → Val) (db : DBOracle)
    (data : List (String × Val)) : Except PyErr Inst × List Eff :=
  let (r, calls) := fkLoop gos data data
  let ctr := calls.map Eff.gosCall
  match r with
  | .error e => (.error e, ctr)
  | .ok d =>
      let tr := ctr ++ gosPhaseTrace repo db d
      match gosFoundRows repo db d with
      | [] => (.error .indexError, tr)
      | row0 :: _ => (.ok (mkInst row0), tr)

/-- `zentity` `Repository.save`: early return for non-model instances, then
the data dict, the foreign-key loop over `instance.__dict__`, the insert,
and the id fill-in. -/
def zentitySave (repo : Repo) (gos : Val → Val) (db : DBOracle) (inst : Inst) :
    Except PyErr Inst × List Eff :=
  if !inst.isModel then (.ok inst, [])
  else
    let (r, calls) := fkLoop gos inst.attrs (saveDataOf inst)
    let ctr := calls.map Eff.gosCall
    match r with
    | .error e => (.error e, ctr)
    | .ok d =>
        let tr := ctr ++ [Eff.query (createSQL repo.table_name d) d]
        match dictGet inst.attrs "id" with
        | none => (.error (.attributeError "id"), tr)
        | some idv =>
            if pyTruthy idv then (.ok inst, tr)
            else
              (.ok { inst with attrs := dictSet inst.attrs "id" (lastIdOf db) },
               tr ++ [Eff.query lastIdSQL []])

/-- `zentity` `Repository.get_or_save`. -/
def zentityGetOrSave (repo : Repo) (gos : Val → Val) (db : DBOracle)
    (inst : Inst) : Except PyErr Inst × List Eff :=
  let (r, calls) := fkLoop gos inst.attrs (saveDataOf inst)
  let ctr := calls.map Eff.gosCall
  match r with
  | .error e => (.error e, ctr)
  | .ok d =>
      let tr := ctr ++ gosPhaseTrace repo db d
      match gosFoundRows repo db d with
      | [] => (.error .indexError, tr)
      | row0 :: _ =>
          (.ok { inst with attrs := applySetAttrs inst.attrs (rowDiffs row0 d) }, tr)

/-! ### The diol `model` class decorator -/

/-- A method attribute of an entity class: either whatever the class had
from its source, or one of the two lambdas the decorator injects. -/
inductive InjectedMethod where
  | fromSource (tag : Nat)
  | delegatesToObjectsSave
  | delegatesToObjectsGetOrSave

/-- An entity class as the decorator sees it. -/
structure EntityCls where
  cls : PyClass
  isDataclass : Bool
  objects : Option Repo
  saveAttr : Option InjectedMethod
  getOrSaveAttr : Option InjectedMethod

/-- The diol `model` class decorator: transform into a dataclass, attach a
fresh `Repository` as `objects` when none exists, and inject the `save` and
`get_or_save` lambdas. -/
def modelDecorator (s : ConnState) (entity : EntityCls) : EntityCls × ConnState :=
  let e1 := { entity with isDataclass := true }      -- entity = dataclass(entity)
  let (objs, s2) :=
    match e1.objects with                            -- if not hasattr(entity, 'objects'):
    | some r => (some r, s)
    | none =>
        let (r, s1) := mkRepository s e1.cls         -- entity.objects = Repository(entity)
        (some r, s1)
  ({ e1 with objects := objs
             saveAttr := some .delegatesToObjectsSave
             getOrSaveAttr := some .delegatesToObjectsGetOrSave }, s2)

/-- The call a method dispatches to `objects`. -/
inductive RepoDispatch where
  | objectsSave (inst : Inst)
  | objectsGetOrSave (inst : Inst)

/-- Calling `instance.save()` on an instance of the class: the injected
lambda hands the instance to `entity.objects.save`. -/
def invokeSaveMethod (e : EntityCls) (inst : Inst) : Option RepoDispatch :=
  match e.saveAttr with
  | some .delegatesToObjectsSave => some (.objectsSave inst)
  | _ => none

/-- Calling `instance.get_or_save()`. -/
def invokeGetOrSaveMethod (e : EntityCls) (inst : Inst) : Option RepoDispatch :=
  match e.getOrSaveAttr with
  | some .delegatesToObjectsGetOrSave => some (.objectsGetOrSave inst)
  | _ => none

/-! ### Lemmas on the table-name derivation -/

theorem reFindAllCaps_eq_dropWhile (l : List Char) :
    reFindAllCaps l = specCapitalSplit (l.dropWhile (fun c => !c.isUpper)) := by
  rw [reFindAllCaps]
  induction l with
  | nil => rfl
  | cons c rest ih =>
      by_cases hc : c.isUpper
      · simp [capGroupsAcc, hc, List.dropWhile_cons, specCapitalSplit]
      · simpa [capGroupsAcc, hc, List.dropWhile_cons] using ih

theorem mem_capGroupsAcc :
    ∀ (l cur : List Char) (b : Bool) (g : List Char) (ch : Char),
      g ∈ capGroupsAcc cur b l → ch ∈ g → ch ∈ cur ∨ ch ∈ l := by
  intro l
  induction l with
  | nil =>
      intro cur b g ch hg hch
      cases b with
      | true =>
          simp [capGroupsAcc] at hg
          subst hg
          exact Or.inl (List.mem_reverse.mp hch)
      | false => simp [capGroupsAcc] at hg
  | cons c rest ih =>
      intro cur b g ch hg hch
      by_cases hc : c.isUpper
      · cases b with
        | true =>
            simp only [capGroupsAcc, hc, if_true, List.mem_cons] at hg
            rcases hg with hg | hg
            · subst hg
              exact Or.inl (List.mem_reverse.mp hch)
            · rcases ih [c] true g ch hg hch with h1 | h1
              · simp at h1
                exact Or.inr (by simp [h1])
              · exact Or.inr (by simp [h1])
        | false =>
            simp only [capGroupsAcc, hc, if_true] at hg
            rcases ih [c] true g ch hg hch with h1 | h1
            · simp at h1
              exact Or.inr (by simp [h1])
            · exact Or.inr (by simp [h1])
      · cases b with
        | true =>
            simp only [capGroupsAcc, hc, if_false, Bool.false_eq_true] at hg
            rcases ih (c :: cur) true g ch hg hch with h1 | h1
            · rcases List.mem_cons.mp h1 with h2 | h2
              · exact Or.inr (by simp [h2])
              · exact Or.inl h2
            · exact Or.inr (by simp [h1])
        | false =>
            simp only [capGroupsAcc, hc, if_false, Bool.false_eq_true] at hg
            rcases ih cur false g ch hg hch with h1 | h1
            · exact Or.inl h1
            · exact Or.inr (by simp [h1])

theorem mem_specCapitalSplit (l : List Char) (g : List Char) (ch : Char)
    (hg : g ∈ specCapitalSplit l) (hch : ch ∈ g) : ch ∈ l := by
  cases l with
  | nil => simp [specCapitalSplit] at hg
  | cons c rest =>
      rcases mem_capGroupsAcc rest [c] true g ch hg hch with h1 | h1
      · simp at h1
        simp [h1]
      · simp [h1]

theorem mem_joinCharGroups :
    ∀ (gs : List (List Char)) (sep : List Char) (ch : Char),
      ch ∈ joinCharGroups sep gs → ch ∈ sep ∨ ∃ g ∈ gs, ch ∈ g := by
  intro gs
  induction gs with
  | nil =>
      intro sep ch h
      simp [joinCharGroups] at h
  | cons g rest ih =>
      intro sep ch h
      cases rest with
      | nil =>
          simp only [joinCharGroups] at h
          exact Or.inr ⟨g, by simp, h⟩
      | cons g2 gs2 =>
          simp only [joinCharGroups, List.append_assoc, List.mem_append] at h
          rcases h with h | h | h
          · exact Or.inr ⟨g, by simp, h⟩
          · exact Or.inl h
          · rcases ih sep ch h with h1 | ⟨g3, hg3, hchg3⟩
            · exact Or.inl h1
            · exact Or.inr ⟨g3, by simp [hg3], hchg3⟩

theorem toLower_isWhitespace_false (c : Char) (h : c.isWhitespace = false) :
    (Char.toLower c).isWhitespace = false := by
  simp only [Char.toLower]
  by_cases hc : c.toNat ≥ 65 ∧ c.toNat ≤ 90
  · rw [if_pos hc]
    obtain ⟨h1, h2⟩ := hc
    generalize hg : c.toNat = m at h1 h2
    interval_cases m <;> decide
  · rw [if_neg hc]
    exact h

theorem dropWhile_all_false (p : Char → Bool) (l : List Char)
    (h : ∀ c ∈ l, p c = false) : l.dropWhile p = l := by
  cases l with
  | nil => rfl
  | cons c rest => simp [List.dropWhile_cons, h c (by simp)]

theorem pyStripChars_id (l : List Char) (h : ∀ c ∈ l, c.isWhitespace = false) :
    pyStripChars l = l := by
  rw [pyStripChars, dropWhile_all_false _ _ h,
      dropWhile_all_false _ _ (fun c hc => h c (List.mem_reverse.mp hc)),
      List.reverse_reverse]

theorem mem_dropWhile_subset (p : Char → Bool) (l : List Char) (c : Char)
    (h : c ∈ l.dropWhile p) : c ∈ l :=
  (List.dropWhile_sublist p (l := l)).mem h

/-! ## Claim theorems -/

/-- C2, counterexample: for the class name `myEntity` (no explicit
`table_name`), the repository's table name is `entity` — the regular
expression drops the characters before the first capital letter — while
splitting the class name on capital-letter boundaries and joining with
underscores, lower-cased, gives `my_entity`.  The claim as stated is
therefore false. -/
theorem table_name_spec_counterexample :
    tableNameOf ⟨"myEntity", none⟩ = "entity" ∧
    specTableName "myEntity" = "my_entity" ∧
    tableNameOf ⟨"myEntity", none⟩ ≠ specTableName "myEntity" := by
  refine ⟨by decide, by decide, by decide⟩

/-- C2, amended: for every model class whose name contains no whitespace,
the repository's table name is the explicit `table_name` attribute verbatim
when one is declared, and otherwise the class name with the characters
before the first capital letter discarded, split on capital-letter
boundaries, joined with underscores and lower-cased. -/
theorem table_name_amended (model : PyClass)
    (hws : ∀ c ∈ model.name.data, c.isWhitespace = false) :
    (∀ t, model.table_name = some t → tableNameOf model = t) ∧
    (model.table_name = none →
      tableNameOf model = specTableNameAmended model.name) := by
  constructor
  · intro t ht
    simp [tableNameOf, ht]
  · intro ht
    simp only [tableNameOf, ht]
    rw [deriveTableName, specTableNameAmended, reFindAllCaps_eq_dropWhile]
    have hall : ∀ ch ∈ pyLowerChars (joinCharGroups ['_']
        (specCapitalSplit (model.name.data.dropWhile (fun c => !c.isUpper)))),
        ch.isWhitespace = false := by
      intro ch hch
      rw [pyLowerChars] at hch
      obtain ⟨ch0, hch0, rfl⟩ := List.mem_map.mp hch
      apply toLower_isWhitespace_false
      rcases mem_joinCharGroups _ _ _ hch0 with hsep | ⟨g, hg, hchg⟩
      · simp at hsep
        subst hsep
        decide
      · exact hws ch0 (mem_dropWhile_subset _ _ _
          (mem_specCapitalSplit _ _ _ hg hchg))
    rw [pyStripChars_id _ hall]

/-- C2, witness for the amended theorem: at the class `MyFakeEntity` the
derived and the amended-spec table names agree (`my_fake_entity`), and an
explicit `table_name` attribute is taken verbatim. -/
theorem table_name_amended_witness :
    tableNameOf ⟨"MyFakeEntity", none⟩ = specTableNameAmended "MyFakeEntity" ∧
    tableNameOf ⟨"MyFakeEntity", some "my_super_table_name"⟩ =
      "my_super_table_name" :=
  ⟨(table_name_amended ⟨"MyFakeEntity", none⟩ (by decide)).2 rfl,
   (table_name_amended ⟨"MyFakeEntity", some "my_super_table_name"⟩
      (by decide)).1 "my_super_table_name" rfl⟩

/-- C3: for every prior state of the process-wide connection dictionary,
`Repository.__init__` sets `_connection_key` to `None` right before the
guard, so the guarded condition is true and the connection-creation branch
executes: a fresh `Database` object is stored under the fixed key
`'default'` (overwriting any previously stored connection) and the
repository's `_db` is exactly that new object. -/
theorem init_always_creates_connection (s : ConnState) :
    (repoInitConn s).2.2.2 = true ∧
    (repoInitConn s).1.conns = dictSet s.conns "default" s.fresh ∧
    (repoInitConn s).1.fresh = s.fresh + 1 ∧
    dictGet (repoInitConn s).1.conns "default" = some s.fresh ∧
    (repoInitConn s).2.1 = some "default" ∧
    (repoInitConn s).2.2.1 = some s.fresh := by
  simp [repoInitConn, pyTruthyOptStr, dictGet_dictSet_self]

/-- C5: `_columns` joins the keys in insertion order with `', '`,
`_placeholders` joins `':k'` for each key, `_where` joins `'k=:k'` with
`' AND '`; the INSERT text interpolates the table name verbatim, followed
by the parenthesised column list and by `VALUES (` with the placeholder
list; the SELECT text of `_get_all_by` interpolates the table name
verbatim followed by `' WHERE '` and the where-clause. -/
theorem sql_text_shape (t : String) (d d2 : List (String × Val))
    (k k2 : String) (v v2 : Val) :
    columnsOf ([] : List (String × Val)) = "" ∧
    columnsOf [(k, v)] = k ∧
    columnsOf ((k, v) :: (k2, v2) :: d2) =
      k ++ ", " ++ columnsOf ((k2, v2) :: d2) ∧
    placeholdersOf [(k, v)] = ":" ++ k ∧
    placeholdersOf ((k, v) :: (k2, v2) :: d2) =
      ":" ++ k ++ ", " ++ placeholdersOf ((k2, v2) :: d2) ∧
    whereOf [(k, v)] = k ++ "=:" ++ k ∧
    whereOf ((k, v) :: (k2, v2) :: d2) =
      k ++ "=:" ++ k ++ " AND " ++ whereOf ((k2, v2) :: d2) ∧
    createSQL t d = "\n            INSERT INTO " ++ t ++ "(" ++ columnsOf d ++
      ")\n            VALUES (" ++ placeholdersOf d ++ ")\n        " ∧
    getAllBySQL t d = "\n            SELECT * FROM " ++ t ++ " WHERE " ++
      whereOf d ++ "\n        " :=
  ⟨rfl, rfl, rfl, rfl, rfl, rfl, rfl, rfl, rfl⟩

/-- C7: the diol `model` decorator returns the class transformed into a
dataclass; `objects` is set to a fresh `Repository` for the class exactly
when none existed (an existing one is kept); the injected `save` and
`get_or_save` methods hand the instance to `objects.save` and
`objects.get_or_save`. -/
theorem model_decorator_wiring (s : ConnState) (entity : EntityCls) (inst : Inst) :
    ((modelDecorator s entity).1).isDataclass = true ∧
    ((modelDecorator s entity).1).cls = entity.cls ∧
    ((modelDecorator s entity).1).objects =
      some (entity.objects.getD (mkRepository s entity.cls).1) ∧
    invokeSaveMethod (modelDecorator s entity).1 inst =
      some (.objectsSave inst) ∧
    invokeGetOrSaveMethod (modelDecorator s entity).1 inst =
      some (.objectsGetOrSave inst) := by
  cases h : entity.objects <;>
    simp [modelDecorator, h, invokeSaveMethod, invokeGetOrSaveMethod]

/-- C6: `filter` and `get_all` return exactly the rows delivered by the
query library, each keyword-expanded into the model constructor, in row
order; an empty row list yields the empty list. -/
theorem filter_get_all_row_mapping (repo : Repo) (db : DBOracle)
    (data : List (String × Val)) :
    (diolFilter repo db data).1 =
      (db (getAllBySQL repo.table_name data) data).map mkInst ∧
    (diolFilter repo db data).1.length =
      (db (getAllBySQL repo.table_name data) data).length ∧
    (∀ i : Nat, (diolFilter repo db data).1[i]? =
      ((db (getAllBySQL repo.table_name data) data)[i]?).map mkInst) ∧
    (db (getAllBySQL repo.table_name data) data = [] →
      (diolFilter repo db data).1 = []) ∧
    (diolGetAll repo db).1 = (db (getAllSQL repo.table_name) []).map mkInst ∧
    (∀ i : Nat, (diolGetAll repo db).1[i]? =
      ((db (getAllSQL repo.table_name) [])[i]?).map mkInst) ∧
    (db (getAllSQL repo.table_name) [] = [] → (diolGetAll repo db).1 = []) := by
  refine ⟨rfl, by simp [diolFilter], ?_, ?_, rfl, ?_, ?_⟩
  · intro i
    simp [diolFilter]
  · intro h
    simp [diolFilter, h]
  · intro i
    simp [diolGetAll]
  · intro h
    simp [diolGetAll, h]

/-- C6, witness: with an oracle returning no rows, `filter` and `get_all`
return the empty list. -/
theorem filter_get_all_row_mapping_witness :
    (diolFilter ⟨⟨"MyFakeEntity", none⟩, "MyFakeEntity", "my_fake_entity", some 0⟩
        (fun _ _ => []) [("title", Val.vstr "essai")]).1 = [] ∧
    (diolGetAll ⟨⟨"MyFakeEntity", none⟩, "MyFakeEntity", "my_fake_entity", some 0⟩
        (fun _ _ => [])).1 = [] :=
  ⟨(filter_get_all_row_mapping _ _ _).2.2.2.1 rfl,
   (filter_get_all_row_mapping ⟨⟨"MyFakeEntity", none⟩, "MyFakeEntity",
      "my_fake_entity", some 0⟩ (fun _ _ => []) [("title", Val.vstr "essai")]).2.2.2.2.2.2 rfl⟩

/-- C1: evaluation of the code at the failing input.  `create` called with
keyword data lacking the key `id` reaches `data['id'] = self.last_id`; the
`Repository` class defines the property `_last_id` but no attribute
`last_id`, so the wrapper itself raises `AttributeError` — contradicting
the claim that every escaping exception originates in the underlying query
library.  The INSERT has already been issued at that point. -/
theorem diol_create_wrapper_attribute_error :
    (diolCreate ⟨⟨"MyFakeEntity", none⟩, "MyFakeEntity", "my_fake_entity", some 0⟩
        (fun _ _ => []) [("title", Val.vstr "essai")]).1 =
      .error (.attributeError "last_id") ∧
    (diolCreate ⟨⟨"MyFakeEntity", none⟩, "MyFakeEntity", "my_fake_entity", some 0⟩
        (fun _ _ => []) [("title", Val.vstr "essai")]).2 =
      [Eff.query (createSQL "my_fake_entity" [("title", Val.vstr "essai")])
        [("title", Val.vstr "essai")]] ∧
    repositoryAttrNames.contains "last_id" = false ∧
    repositoryAttrNames.contains "_last_id" = true := by
  have hmem : "last_id" ∉ repositoryAttrNames := by decide
  refine ⟨?_, rfl, by decide, by decide⟩
  simp [diolCreate, hasKey, dictGet, hmem]

/-- C8, counterexample: in the zentity variant, when the keyword data does
contain the key `id` but its value is a model instance, the foreign-key
loop replaces the key by `id_id`, so `create` still raises
`AttributeError` instead of returning `model(**data)` — the two variants do
not have the same behaviour for every call. -/
theorem zentity_create_id_model_counterexample :
    hasKey [("id", Val.vobj true [("id", Val.vint 7)])] "id" = true ∧
    (zentityCreate ⟨⟨"Post", none⟩, "Post", "post", some 0⟩ (fun v => v)
        (fun _ _ => []) [("id", Val.vobj true [("id", Val.vint 7)])]).1 =
      .error (.attributeError "last_id") := by
  have hmem : "last_id" ∉ repositoryAttrNames := by decide
  constructor
  · decide
  · simp [zentityCreate, fkLoop, isModelV, getattrVal, dictDel, dictSet,
      hasKey, dictGet, hmem]

/-- C8, amended: diol `create` raises `AttributeError` (the misspelled
`last_id` attribute read) exactly when the keyword data lacks the key
`id`, after issuing the INSERT, and returns `model(**data)` otherwise;
zentity `create` behaves the same with respect to its data *after*
foreign-key resolution — in particular a model instance passed under the
key `id` is replaced by `id_id`, and the call then raises even though `id`
was present in the original keyword data. -/
theorem create_missing_id_amended (repo : Repo) (db : DBOracle)
    (gos : Val → Val) (data d2 : List (String × Val)) (calls : List Val)
    (hfk : fkLoop gos data data = (.ok d2, calls)) :
    ((diolCreate repo db data).1 =
      if hasKey data "id" then .ok (mkInst data)
      else .error (.attributeError "last_id")) ∧
    (diolCreate repo db data).2 =
      [Eff.query (createSQL repo.table_name data) data] ∧
    ((zentityCreate repo gos db data).1 =
      if hasKey d2 "id" then .ok (mkInst d2)
      else .error (.attributeError "last_id")) := by
  have hmem : "last_id" ∉ repositoryAttrNames := by decide
  refine ⟨?_, ?_, ?_⟩
  · by_cases h : hasKey data "id" <;> simp [diolCreate, h, hmem]
  · by_cases h : hasKey data "id" <;> simp [diolCreate, h, hmem]
  · by_cases h : hasKey d2 "id" <;> simp [zentityCreate, hfk, h, hmem]

/-- C8, witness for the amended theorem at concrete inputs with and
without the key `id`. -/
theorem create_missing_id_amended_witness :
    ((diolCreate ⟨⟨"P", none⟩, "P", "p", some 0⟩ (fun _ _ => [])
        [("title", Val.vstr "essai")]).1 =
      if hasKey [("title", Val.vstr "essai")] "id"
      then .ok (mkInst [("title", Val.vstr "essai")])
      else .error (.attributeError "last_id")) ∧
    ((zentityCreate ⟨⟨"P", none⟩, "P", "p", some 0⟩ (fun v => v)
        (fun _ _ => []) [("id", Val.vint 1)]).1 =
      if hasKey [("id", Val.vint 1)] "id"
      then .ok (mkInst [("id", Val.vint 1)])
      else .error (.attributeError "last_id")) :=
  ⟨(create_missing_id_amended ⟨⟨"P", none⟩, "P", "p", some 0⟩ (fun _ _ => [])
      (fun v => v) [("title", Val.vstr "essai")] [("title", Val.vstr "essai")]
      [] rfl).1,
   (create_missing_id_amended ⟨⟨"P", none⟩, "P", "p", some 0⟩ (fun _ _ => [])
      (fun v => v) [("id", Val.vint 1)] [("id", Val.vint 1)] [] rfl).2.2⟩

/-! ### Lemmas on `asdict` and the save data -/

theorem isNone_asdictVal (v : Val) : isNone (asdictVal v) = isNone v := by
  cases v <;> rfl

theorem asdictEntries_filter_keys (l : List (String × Val)) :
    dictKeys ((asdictEntries l).filter (fun kv => !isNone kv.2)) =
      dictKeys (l.filter (fun kv => !isNone kv.2)) := by
  induction l with
  | nil => rfl
  | cons kv rest ih =>
      obtain ⟨k, v⟩ := kv
      by_cases hv : isNone v
      · simp [asdictEntries, List.filter_cons, isNone_asdictVal, hv, ih]
      · simp only [asdictEntries, List.filter_cons, isNone_asdictVal, hv]
        simpa [dictKeys] using ih

theorem saveDataOf_keys (inst : Inst) :
    dictKeys (saveDataOf inst) =
      dictKeys (inst.attrs.filter (fun kv => !isNone kv.2)) :=
  asdictEntries_filter_keys inst.attrs

theorem saveDataOf_keys_sublist (inst : Inst) :
    List.Sublist (dictKeys (saveDataOf inst)) (dictKeys inst.attrs) := by
  rw [saveDataOf_keys]
  exact (List.filter_sublist inst.attrs).map Prod.fst

/-- C9: `diol` `save` issues a single INSERT whose columns are exactly the
instance's non-`None` fields (in field order), touches no attribute of the
instance except `id` — which it sets to the last insert id exactly when the
existing id is falsy — and returns the (possibly id-updated) instance. -/
theorem diol_save_frame (repo : Repo) (db : DBOracle) (inst : Inst) (idv : Val)
    (hid : dictGet inst.attrs "id" = some idv) :
    ∃ inst2, (diolSave repo db inst).1 = .ok inst2 ∧
      (diolSave repo db inst).2 =
        Eff.query (createSQL repo.table_name (saveDataOf inst)) (saveDataOf inst) ::
          (if pyTruthy idv then [] else [Eff.query lastIdSQL []]) ∧
      dictKeys (saveDataOf inst) =
        dictKeys (inst.attrs.filter (fun kv => !isNone kv.2)) ∧
      inst2.isModel = inst.isModel ∧
      (∀ x, x ≠ "id" → dictGet inst2.attrs x = dictGet inst.attrs x) ∧
      (pyTruthy idv = true → inst2 = inst) ∧
      (pyTruthy idv = false → dictGet inst2.attrs "id" = some (lastIdOf db)) := by
  by_cases ht : pyTruthy idv
  · refine ⟨inst, ?_, ?_, saveDataOf_keys inst, rfl, fun x _ => rfl,
      fun _ => rfl, fun hf => by simp [ht] at hf⟩
    · simp [diolSave, hid, ht]
    · simp [diolSave, hid, ht]
  · refine ⟨{ inst with attrs := dictSet inst.attrs "id" (lastIdOf db) },
      ?_, ?_, saveDataOf_keys inst, rfl, ?_, fun htr => by simp [ht] at htr,
      fun _ => dictGet_dictSet_self _ _ _⟩
    · simp [diolSave, hid, ht]
    · simp [diolSave, hid, ht]
    · intro x hx
      exact dictGet_dictSet_ne _ _ _ _ hx

/-- C9, witness: a concrete instance with a falsy id gets its id filled in,
all other attributes untouched. -/
theorem diol_save_frame_witness :
    ∃ inst2,
      (diolSave ⟨⟨"P", none⟩, "P", "p", some 0⟩ (fun _ _ => [])
          ⟨true, [("title", Val.vstr "essai"), ("id", Val.vnone)]⟩).1 = .ok inst2 ∧
      (diolSave ⟨⟨"P", none⟩, "P", "p", some 0⟩ (fun _ _ => [])
          ⟨true, [("title", Val.vstr "essai"), ("id", Val.vnone)]⟩).2 =
        Eff.query (createSQL "p"
            (saveDataOf ⟨true, [("title", Val.vstr "essai"), ("id", Val.vnone)]⟩))
          (saveDataOf ⟨true, [("title", Val.vstr "essai"), ("id", Val.vnone)]⟩) ::
          (if pyTruthy Val.vnone then [] else [Eff.query lastIdSQL []]) ∧
      dictKeys (saveDataOf ⟨true, [("title", Val.vstr "essai"), ("id", Val.vnone)]⟩) =
        dictKeys ([("title", Val.vstr "essai"), ("id", Val.vnone)].filter
          (fun kv => !isNone kv.2)) ∧
      inst2.isModel = true ∧
      (∀ x, x ≠ "id" → dictGet inst2.attrs x =
        dictGet [("title", Val.vstr "essai"), ("id", Val.vnone)] x) ∧
      (pyTruthy Val.vnone = true →
        inst2 = ⟨true, [("title", Val.vstr "essai"), ("id", Val.vnone)]⟩) ∧
      (pyTruthy Val.vnone = false → dictGet inst2.attrs "id" =
        some (lastIdOf (fun _ _ => []))) :=
  diol_save_frame ⟨⟨"P", none⟩, "P", "p", some 0⟩ (fun _ _ => [])
    ⟨true, [("title", Val.vstr "essai"), ("id", Val.vnone)]⟩ Val.vnone rfl

/-! ### Lemmas on the `diffs` comprehension and `setattr` loop -/

theorem applySetAttrs_get (ds : List (String × Val)) :
    ∀ (a : List (String × Val)) (k : String), (dictKeys ds).Nodup →
      dictGet (applySetAttrs a ds) k =
        match dictGet ds k with
        | some v => some v
        | none => dictGet a k := by
  induction ds with
  | nil => intro a k _; simp [applySetAttrs, dictGet]
  | cons kv rest ih =>
      intro a k hnd
      obtain ⟨k1, v1⟩ := kv
      simp only [dictKeys, List.map_cons, List.nodup_cons] at hnd
      have hstep : applySetAttrs a ((k1, v1) :: rest) =
          applySetAttrs (dictSet a k1 v1) rest := rfl
      rw [hstep, ih (dictSet a k1 v1) k hnd.2]
      by_cases hk : k1 = k
      · subst hk
        have hnone : dictGet rest k1 = none :=
          (dictGet_eq_none_iff rest k1).2 (by simpa [dictKeys] using hnd.1)
        simp [dictGet, hnone, dictGet_dictSet_self]
      · have hkk : k ≠ k1 := fun hh => hk (Eq.symm hh)
        cases hr : dictGet rest k <;>
          simp [dictGet, hk, hr, dictGet_dictSet_ne a k1 k v1 hkk]

theorem rowDiffs_keys_sublist (row : Row) (data : List (String × Val)) :
    List.Sublist (dictKeys (rowDiffs row data)) (dictKeys row) :=
  (List.filter_sublist row).map Prod.fst

theorem rowDiffs_get (row : Row) (data : List (String × Val)) (k : String)
    (hnd : (dictKeys row).Nodup) :
    dictGet (rowDiffs row data) k =
      match dictGet row k with
      | some v => if data.any (fun kv2 => !valBeq v kv2.2) then some v else none
      | none => none := by
  induction row with
  | nil => simp [rowDiffs, dictGet]
  | cons kv rest ih =>
      obtain ⟨k1, v1⟩ := kv
      simp only [dictKeys, List.map_cons, List.nodup_cons] at hnd
      by_cases hp : data.any (fun kv2 => !valBeq v1 kv2.2)
      · by_cases hk : k1 = k
        · subst hk
          simp [rowDiffs, List.filter_cons, hp, dictGet]
        · simp only [rowDiffs, List.filter_cons, hp, if_true]
          simpa [rowDiffs, dictGet, hk] using ih hnd.2
      · by_cases hk : k1 = k
        · subst hk
          have hnone : dictGet (rowDiffs rest data) k1 = none := by
            refine (dictGet_eq_none_iff _ k1).2 fun hmem => hnd.1 ?_
            simpa [dictKeys] using (rowDiffs_keys_sublist rest data).mem hmem
          simp only [rowDiffs, List.filter_cons] at hnone ⊢
          simp [hp, hnone, dictGet]
        · simp only [rowDiffs, List.filter_cons, hp]
          simpa [rowDiffs, dictGet, hk] using ih hnd.2

/-! ### Lemmas on the foreign-key resolution loop -/

theorem string_ne_append_id (s : String) : s ≠ s ++ "_id" := by
  intro h
  have h2 := congrArg String.length h
  rw [String.length_append, show ("_id".length) = 3 from rfl] at h2
  omega

theorem string_append_id_inj (a b : String) (h : a ++ "_id" = b ++ "_id") :
    a = b := by
  have hd := congrArg String.data h
  simp only [String.data_append] at hd
  exact String.ext (List.append_cancel_right hd)

theorem fkLoop_cons_model (gos : Val → Val) (k : String) (v : Val)
    (rest d : List (String × Val)) (hm : isModelV v = true) :
    fkLoop gos ((k, v) :: rest) d =
      match getattrVal (gos v) "id" with
      | none => (.error (.attributeError "id"), [v])
      | some i =>
          match dictDel d k with
          | none => (.error (.keyError k), [v])
          | some d2 =>
              ((fkLoop gos rest (dictSet d2 (k ++ "_id") i)).1,
               v :: (fkLoop gos rest (dictSet d2 (k ++ "_id") i)).2) := by
  simp [fkLoop, hm]

theorem fkLoop_cons_nonmodel (gos : Val → Val) (k : String) (v : Val)
    (rest d : List (String × Val)) (hm : isModelV v = false) :
    fkLoop gos ((k, v) :: rest) d = fkLoop gos rest d := by
  simp [fkLoop, hm]

/-- Keys the loop neither deletes (a model field's key) nor writes (a model
field's key suffixed `_id`) keep their binding. -/
theorem fkLoop_get_preserve (gos : Val → Val) :
    ∀ (src d dfin : List (String × Val)) (calls : List Val) (x : String),
      fkLoop gos src d = (.ok dfin, calls) →
      (∀ kv ∈ src, isModelV kv.2 = true → x ≠ kv.1 ∧ x ≠ kv.1 ++ "_id") →
      dictGet dfin x = dictGet d x := by
  intro src
  induction src with
  | nil =>
      intro d dfin calls x h _
      simp only [fkLoop, Prod.mk.injEq] at h
      obtain rfl : d = dfin := by simpa using h.1
      rfl
  | cons hd rest ih =>
      intro d dfin calls x h hcond
      obtain ⟨k, v⟩ := hd
      by_cases hm : isModelV v
      · rw [fkLoop_cons_model gos k v rest d hm] at h
        cases hga : getattrVal (gos v) "id" with
        | none => simp [hga] at h
        | some i =>
            simp only [hga] at h
            cases hdd : dictDel d k with
            | none => simp [hdd] at h
            | some dd =>
                simp only [hdd, Prod.mk.injEq] at h
                have hrun : fkLoop gos rest (dictSet dd (k ++ "_id") i) =
                    (.ok dfin, (fkLoop gos rest (dictSet dd (k ++ "_id") i)).2) :=
                  Prod.ext h.1 rfl
                have hx := ih (dictSet dd (k ++ "_id") i) dfin _ x hrun
                  (fun kv2 hkv2 hm2 => hcond kv2 (List.mem_cons_of_mem _ hkv2) hm2)
                obtain ⟨hxk, hxkid⟩ := hcond (k, v) (by simp) hm
                rw [hx, dictGet_dictSet_ne dd (k ++ "_id") x i hxkid,
                    dictGet_dictDel_ne d dd k x hdd hxk]
      · rw [fkLoop_cons_nonmodel gos k v rest d (by simpa using hm)] at h
        exact ih d dfin calls x h
          (fun kv2 hkv2 hm2 => hcond kv2 (List.mem_cons_of_mem _ hkv2) hm2)

/-- The central fact about the loop: on a successful run, every model field
of the source bindings has had `get_or_save` called on its value, its key
is gone from the final dict, and `<key>_id` is bound to the value's id. -/
theorem fkLoop_resolved (gos : Val → Val) :
    ∀ (src d0 dfin : List (String × Val)) (calls : List Val),
      fkLoop gos src d0 = (.ok dfin, calls) →
      (dictKeys src).Nodup →
      (∀ k1 ∈ dictKeys src, ∀ k2 ∈ dictKeys src, k1 ≠ k2 ++ "_id") →
      (dictKeys d0).Nodup →
      ∀ kv ∈ src, isModelV kv.2 = true →
        kv.2 ∈ calls ∧ dictGet dfin kv.1 = none ∧
        ∃ i, getattrVal (gos kv.2) "id" = some i ∧
          dictGet dfin (kv.1 ++ "_id") = some i := by
  intro src
  induction src with
  | nil =>
      intro d0 dfin calls _ _ _ _ kv hkv
      simp at hkv
  | cons hd rest ih =>
      intro d0 dfin calls h hnd hpair hnd0 kv hkv hm
      obtain ⟨k, v⟩ := hd
      simp only [dictKeys, List.map_cons, List.nodup_cons] at hnd
      have hpair2 : ∀ k1 ∈ dictKeys rest, ∀ k2 ∈ dictKeys rest,
          k1 ≠ k2 ++ "_id" := fun k1 h1 k2 h2 =>
        hpair k1 (by simp [dictKeys] at h1 ⊢; tauto)
          k2 (by simp [dictKeys] at h2 ⊢; tauto)
      by_cases hmv : isModelV v
      · rw [fkLoop_cons_model gos k v rest d0 hmv] at h
        cases hga : getattrVal (gos v) "id" with
        | none => simp [hga] at h
        | some i =>
            simp only [hga] at h
            cases hdd : dictDel d0 k with
            | none => simp [hdd] at h
            | some dd =>
                simp only [hdd, Prod.mk.injEq] at h
                have hrun : fkLoop gos rest (dictSet dd (k ++ "_id") i) =
                    (.ok dfin, (fkLoop gos rest (dictSet dd (k ++ "_id") i)).2) :=
                  Prod.ext h.1 rfl
                rcases List.mem_cons.mp hkv with heq | hkvr
                · subst heq
                  have hck : ∀ kv2 ∈ rest, isModelV kv2.2 = true →
                      k ≠ kv2.1 ∧ k ≠ kv2.1 ++ "_id" := by
                    intro kv2 hkv2 _
                    constructor
                    · intro he
                      exact hnd.1 (he ▸ List.mem_map_of_mem Prod.fst hkv2)
                    · exact hpair k (by simp [dictKeys]) kv2.1
                        (by simp [dictKeys]
                            exact Or.inr ⟨kv2.2, hkv2⟩)
                  have hckid : ∀ kv2 ∈ rest, isModelV kv2.2 = true →
                      k ++ "_id" ≠ kv2.1 ∧ k ++ "_id" ≠ kv2.1 ++ "_id" := by
                    intro kv2 hkv2 _
                    constructor
                    · intro he
                      exact hpair kv2.1
                        (by simp [dictKeys]
                            exact Or.inr ⟨kv2.2, hkv2⟩)
                        k (by simp [dictKeys]) (Eq.symm he)
                    · intro he
                      apply hnd.1
                      rw [string_append_id_inj k kv2.1 he]
                      exact List.mem_map_of_mem Prod.fst hkv2
                  refine ⟨?_, ?_, i, hga, ?_⟩
                  · rw [← h.2]
                    exact List.mem_cons_self _ _
                  · rw [fkLoop_get_preserve gos rest _ dfin _ k hrun hck,
                        dictGet_dictSet_ne dd (k ++ "_id") k i (string_ne_append_id k),
                        dictGet_dictDel_self d0 dd k hdd hnd0]
                  · rw [fkLoop_get_preserve gos rest _ dfin _ (k ++ "_id") hrun hckid,
                        dictGet_dictSet_self]
                · have hnd0b : (dictKeys (dictSet dd (k ++ "_id") i)).Nodup :=
                    nodup_dictSet _ _ _ (nodup_dictDel d0 dd k hdd hnd0)
                  have hres := ih _ dfin _ hrun hnd.2 hpair2 hnd0b kv hkvr hm
                  refine ⟨?_, hres.2⟩
                  rw [← h.2]
                  exact List.mem_cons_of_mem _ hres.1
      · rw [fkLoop_cons_nonmodel gos k v rest d0 (by simpa using hmv)] at h
        rcases List.mem_cons.mp hkv with heq | hkvr
        · rw [heq] at hm
          exact absurd hm hmv
        · exact ih d0 dfin calls h hnd.2 hpair2 hnd0 kv hkvr hm

/-- The hypotheses under which the dict surgery of the loop is tracked
key-by-key: field names are distinct, and no field name is another field
name suffixed with `_id` (so a deleted key is never re-created). -/
def fkSrcOK (src : List (String × Val)) : Prop :=
  (dictKeys src).Nodup ∧
  ∀ k1 ∈ dictKeys src, ∀ k2 ∈ dictKeys src, k1 ≠ k2 ++ "_id"

/-- What the claim asserts of the resolved data `d` and the call list:
every model-valued field had `get_or_save` called on its value, was removed
from the data, and contributed a `<field>_id` column holding the value's
id. -/
def fkResolvedIn (gos : Val → Val) (src d : List (String × Val))
    (calls : List Val) : Prop :=
  ∀ kv ∈ src, isModelV kv.2 = true →
    kv.2 ∈ calls ∧ dictGet d kv.1 = none ∧
    ∃ i, getattrVal (gos kv.2) "id" = some i ∧
      dictGet d (kv.1 ++ "_id") = some i

theorem gosPhaseTrace_head (repo : Repo) (db : DBOracle)
    (data : List (String × Val)) :
    ∃ tr2, gosPhaseTrace repo db data =
      Eff.query (getAllBySQL repo.table_name data) data :: tr2 := by
  by_cases h : (db (getAllBySQL repo.table_name data) data).isEmpty
  · exact ⟨[Eff.query (createSQL repo.table_name data) data,
      Eff.query lastIdSQL [],
      Eff.query (getLastSQL repo.table_name) [("id", lastIdOf db)]],
      by simp [gosPhaseTrace, h]⟩
  · exact ⟨[], by simp [gosPhaseTrace, h]⟩

/-- C4: in the zentity variant, each of `save`, `get_or_save`, `create`
and `get_or_create` resolves foreign keys before persisting anything: for
every field of the instance (respectively every keyword argument) whose
value's type carries a `Repository`, the operation calls `get_or_save` on
the value, removes the field from the column/value data and adds a
`<field>_id` column holding the value's id; the resolved data is what the
subsequent queries receive, and the `get_or_save` dispatches precede the
first query in the effect trace. -/
theorem zentity_fk_resolution (repo : Repo) (gos : Val → Val) (db : DBOracle) :
    (∀ inst d calls, inst.isModel = true → fkSrcOK inst.attrs →
      fkLoop gos inst.attrs (saveDataOf inst) = (.ok d, calls) →
      fkResolvedIn gos inst.attrs d calls ∧
      ∃ tr2, (zentitySave repo gos db inst).2 =
        calls.map Eff.gosCall ++
          Eff.query (createSQL repo.table_name d) d :: tr2) ∧
    (∀ inst d calls, fkSrcOK inst.attrs →
      fkLoop gos inst.attrs (saveDataOf inst) = (.ok d, calls) →
      fkResolvedIn gos inst.attrs d calls ∧
      ∃ tr2, (zentityGetOrSave repo gos db inst).2 =
        calls.map Eff.gosCall ++
          Eff.query (getAllBySQL repo.table_name d) d :: tr2) ∧
    (∀ data d calls, fkSrcOK data →
      fkLoop gos data data = (.ok d, calls) →
      fkResolvedIn gos data d calls ∧
      ∃ tr2, (zentityCreate repo gos db data).2 =
        calls.map Eff.gosCall ++
          Eff.query (createSQL repo.table_name d) d :: tr2) ∧
    (∀ data d calls, fkSrcOK data →
      fkLoop gos data data = (.ok d, calls) →
      fkResolvedIn gos data d calls ∧
      ∃ tr2, (zentityGetOrCreate repo gos db data).2 =
        calls.map Eff.gosCall ++
          Eff.query (getAllBySQL repo.table_name d) d :: tr2) := by
  have hmem : "last_id" ∉ repositoryAttrNames := by decide
  refine ⟨?_, ?_, ?_, ?_⟩
  · intro inst d calls hinst hok hfk
    have hnd0 : (dictKeys (saveDataOf inst)).Nodup :=
      (saveDataOf_keys_sublist inst).nodup hok.1
    refine ⟨fkLoop_resolved gos inst.attrs _ d calls hfk hok.1 hok.2 hnd0, ?_⟩
    rcases hid : dictGet inst.attrs "id" with _ | idv
    · exact ⟨[], by simp [zentitySave, hinst, hfk, hid]⟩
    · by_cases ht : pyTruthy idv
      · exact ⟨[], by simp [zentitySave, hinst, hfk, hid, ht]⟩
      · exact ⟨[Eff.query lastIdSQL []],
          by simp [zentitySave, hinst, hfk, hid, ht]⟩
  · intro inst d calls hok hfk
    have hnd0 : (dictKeys (saveDataOf inst)).Nodup :=
      (saveDataOf_keys_sublist inst).nodup hok.1
    refine ⟨fkLoop_resolved gos inst.attrs _ d calls hfk hok.1 hok.2 hnd0, ?_⟩
    obtain ⟨tr2, htr⟩ := gosPhaseTrace_head repo db d
    refine ⟨tr2, ?_⟩
    have hsnd : (zentityGetOrSave repo gos db inst).2 =
        calls.map Eff.gosCall ++ gosPhaseTrace repo db d := by
      rcases hrows : gosFoundRows repo db d with _ | ⟨r0, rrest⟩ <;>
        simp [zentityGetOrSave, hfk, hrows]
    rw [hsnd, htr]
  · intro data d calls hok hfk
    refine ⟨fkLoop_resolved gos data data d calls hfk hok.1 hok.2 hok.1, ?_⟩
    by_cases hk : hasKey d "id"
    · exact ⟨[], by simp [zentityCreate, hfk, hk]⟩
    · exact ⟨[], by simp [zentityCreate, hfk, hk, hmem]⟩
  · intro data d calls hok hfk
    refine ⟨fkLoop_resolved gos data data d calls hfk hok.1 hok.2 hok.1, ?_⟩
    obtain ⟨tr2, htr⟩ := gosPhaseTrace_head repo db d
    refine ⟨tr2, ?_⟩
    have hsnd : (zentityGetOrCreate repo gos db data).2 =
        calls.map Eff.gosCall ++ gosPhaseTrace repo db d := by
      rcases hrows : gosFoundRows repo db d with _ | ⟨r0, rrest⟩ <;>
        simp [zentityGetOrCreate, hfk, hrows]
    rw [hsnd, htr]

/-- C4, witness: a concrete instance with a `None` id and a model-valued
field `author` (id 5); all four operations call `get_or_save` on the
author, drop `author` from the data and persist `author_id = 5`. -/
theorem zentity_fk_resolution_witness :
    (fkResolvedIn (fun v => v)
        [("id", Val.vnone), ("author", Val.vobj true [("id", Val.vint 5)])]
        [("author_id", Val.vint 5)] [Val.vobj true [("id", Val.vint 5)]] ∧
      ∃ tr2, (zentitySave ⟨⟨"Post", none⟩, "Post", "post", some 0⟩
          (fun v => v) (fun _ _ => [])
          ⟨true, [("id", Val.vnone),
                  ("author", Val.vobj true [("id", Val.vint 5)])]⟩).2 =
        [Val.vobj true [("id", Val.vint 5)]].map Eff.gosCall ++
          Eff.query (createSQL "post" [("author_id", Val.vint 5)])
            [("author_id", Val.vint 5)] :: tr2) ∧
    (fkResolvedIn (fun v => v)
        [("id", Val.vnone), ("author", Val.vobj true [("id", Val.vint 5)])]
        [("author_id", Val.vint 5)] [Val.vobj true [("id", Val.vint 5)]] ∧
      ∃ tr2, (zentityGetOrSave ⟨⟨"Post", none⟩, "Post", "post", some 0⟩
          (fun v => v) (fun _ _ => [])
          ⟨true, [("id", Val.vnone),
                  ("author", Val.vobj true [("id", Val.vint 5)])]⟩).2 =
        [Val.vobj true [("id", Val.vint 5)]].map Eff.gosCall ++
          Eff.query (getAllBySQL "post" [("author_id", Val.vint 5)])
            [("author_id", Val.vint 5)] :: tr2) ∧
    (fkResolvedIn (fun v => v)
        [("author", Val.vobj true [("id", Val.vint 5)])]
        [("author_id", Val.vint 5)] [Val.vobj true [("id", Val.vint 5)]] ∧
      ∃ tr2, (zentityCreate ⟨⟨"Post", none⟩, "Post", "post", some 0⟩
          (fun v => v) (fun _ _ => [])
          [("author", Val.vobj true [("id", Val.vint 5)])]).2 =
        [Val.vobj true [("id", Val.vint 5)]].map Eff.gosCall ++
          Eff.query (createSQL "post" [("author_id", Val.vint 5)])
            [("author_id", Val.vint 5)] :: tr2) ∧
    (fkResolvedIn (fun v => v)
        [("author", Val.vobj true [("id", Val.vint 5)])]
        [("author_id", Val.vint 5)] [Val.vobj true [("id", Val.vint 5)]] ∧
      ∃ tr2, (zentityGetOrCreate ⟨⟨"Post", none⟩, "Post", "post", some 0⟩
          (fun v => v) (fun _ _ => [])
          [("author", Val.vobj true [("id", Val.vint 5)])]).2 =
        [Val.vobj true [("id", Val.vint 5)]].map Eff.gosCall ++
          Eff.query (getAllBySQL "post" [("author_id", Val.vint 5)])
            [("author_id", Val.vint 5)] :: tr2) :=
  ⟨(zentity_fk_resolution ⟨⟨"Post", none⟩, "Post", "post", some 0⟩
      (fun v => v) (fun _ _ => [])).1
      ⟨true, [("id", Val.vnone),
              ("author", Val.vobj true [("id", Val.vint 5)])]⟩
      [("author_id", Val.vint 5)] [Val.vobj true [("id", Val.vint 5)]]
      rfl ⟨by decide, by decide⟩ rfl,
   (zentity_fk_resolution ⟨⟨"Post", none⟩, "Post", "post", some 0⟩
      (fun v => v) (fun _ _ => [])).2.1
      ⟨true, [("id", Val.vnone),
              ("author", Val.vobj true [("id", Val.vint 5)])]⟩
      [("author_id", Val.vint 5)] [Val.vobj true [("id", Val.vint 5)]]
      ⟨by decide, by decide⟩ rfl,
   (zentity_fk_resolution ⟨⟨"Post", none⟩, "Post", "post", some 0⟩
      (fun v => v) (fun _ _ => [])).2.2.1
      [("author", Val.vobj true [("id", Val.vint 5)])]
      [("author_id", Val.vint 5)] [Val.vobj true [("id", Val.vint 5)]]
      ⟨by decide, by decide⟩ rfl,
   (zentity_fk_resolution ⟨⟨"Post", none⟩, "Post", "post", some 0⟩
      (fun v => v) (fun _ _ => [])).2.2.2
      [("author", Val.vobj true [("id", Val.vint 5)])]
      [("author_id", Val.vint 5)] [Val.vobj true [("id", Val.vint 5)]]
      ⟨by decide, by decide⟩ rfl⟩

/-- C10: `diol` `get_or_save` overwrites instance attribute `k` with the
found-or-created row's value `rows[0][k]` for exactly those columns whose
row value differs from at least one value of the instance's non-`None`
field data (the comprehension compares each row value against every data
value, not against the value under the same key), leaves every other
attribute unchanged, and returns the instance. -/
theorem diol_get_or_save_diffs (repo : Repo) (db : DBOracle) (inst : Inst)
    (row0 : Row) (rest : List Row)
    (hrows : gosFoundRows repo db (saveDataOf inst) = row0 :: rest)
    (hnd : (dictKeys row0).Nodup) :
    ∃ inst2, (diolGetOrSave repo db inst).1 = .ok inst2 ∧
      inst2.isModel = inst.isModel ∧
      (∀ k v, dictGet row0 k = some v →
        ((saveDataOf inst).any (fun kv2 => !valBeq v kv2.2) = true →
          dictGet inst2.attrs k = some v) ∧
        ((saveDataOf inst).any (fun kv2 => !valBeq v kv2.2) = false →
          dictGet inst2.attrs k = dictGet inst.attrs k)) ∧
      (∀ k, dictGet row0 k = none →
        dictGet inst2.attrs k = dictGet inst.attrs k) := by
  have hself : (diolGetOrSave repo db inst).1 =
      .ok { inst with
        attrs := applySetAttrs inst.attrs (rowDiffs row0 (saveDataOf inst)) } := by
    simp [diolGetOrSave, hrows]
  have hndd : (dictKeys (rowDiffs row0 (saveDataOf inst))).Nodup :=
    (rowDiffs_keys_sublist row0 (saveDataOf inst)).nodup hnd
  refine ⟨_, hself, rfl, ?_, ?_⟩
  · intro k v hkv
    constructor
    · intro hany
      rw [applySetAttrs_get _ _ _ hndd, rowDiffs_get _ _ _ hnd, hkv]
      simp [hany]
    · intro hany
      rw [applySetAttrs_get _ _ _ hndd, rowDiffs_get _ _ _ hnd, hkv]
      simp [hany]
  · intro k hk
    rw [applySetAttrs_get _ _ _ hndd, rowDiffs_get _ _ _ hnd, hk]

/-- C10, witness: with a found row `{modified: 1, a: 'A'}` and instance
data `{a: 'A'}`, both columns are written back (the cross-product
comparison fires even for the unchanged column `a`), the instance keeping
its other attribute values. -/
theorem diol_get_or_save_diffs_witness :
    ∃ inst2,
      (diolGetOrSave ⟨⟨"P", none⟩, "P", "p", some 0⟩
          (fun _ _ => [[("modified", Val.vint 1), ("a", Val.vstr "A")]])
          ⟨true, [("a", Val.vstr "A"), ("id", Val.vnone)]⟩).1 = .ok inst2 ∧
      inst2.isModel = true ∧
      (∀ k v, dictGet [("modified", Val.vint 1), ("a", Val.vstr "A")] k = some v →
        ((saveDataOf ⟨true, [("a", Val.vstr "A"), ("id", Val.vnone)]⟩).any
            (fun kv2 => !valBeq v kv2.2) = true →
          dictGet inst2.attrs k = some v) ∧
        ((saveDataOf ⟨true, [("a", Val.vstr "A"), ("id", Val.vnone)]⟩).any
            (fun kv2 => !valBeq v kv2.2) = false →
          dictGet inst2.attrs k =
            dictGet [("a", Val.vstr "A"), ("id", Val.vnone)] k)) ∧
      (∀ k, dictGet [("modified", Val.vint 1), ("a", Val.vstr "A")] k = none →
        dictGet inst2.attrs k =
          dictGet [("a", Val.vstr "A"), ("id", Val.vnone)] k) :=
  diol_get_or_save_diffs ⟨⟨"P", none⟩, "P", "p", some 0⟩
    (fun _ _ => [[("modified", Val.vint 1), ("a", Val.vstr "A")]])
    ⟨true, [("a", Val.vstr "A"), ("id", Val.vnone)]⟩
    [("modified", Val.vint 1), ("a", Val.vstr "A")] [] rfl (by decide)

end Diol
